import Mathlib

/-!
# Verification of the Helium 10 file-processor pipeline

Shallow embedding of the core data pipeline of the repository
(`modules/data_processing.py`, `modules/excel_utils.py`,
`modules/blocked_items.py`) and proofs about it.

Modelling conventions:
* Python floats are modelled as exact rationals (`ℚ`); `round(x, 2)` is
  modelled as exact round-half-to-even at two decimals.
* Pandas cells are modelled by the `Value` type (`vNull` for `NaN`/`None`,
  `vNum` for numeric cells, `vStr` for string cells).
* Code that can raise is modelled with `Option`: a `none` result of a
  frame-level function means the Python call raised.
* Strings are processed as `List Char`; all source texts are ASCII, so
  lower/upper-casing commutes with the regex `IGNORECASE` flag.
-/

namespace Helium

/-- Python `str.strip()` whitespace class (also `\s` of the `re` module,
restricted to ASCII, which covers all inputs of interest). -/
def pySpace (c : Char) : Bool :=
  c = ' ' ∨ c = '\t' ∨ c = '\n' ∨ c = '\r' ∨ c = '\x0b' ∨ c = '\x0c'

/-- A word character for the regex `\b` boundary (`[A-Za-z0-9_]`; the titles
processed are ASCII). -/
def wordChar (c : Char) : Bool :=
  c.isAlpha ∨ c.isDigit ∨ c = '_'

/-- Python `str.strip()`: drop whitespace from both ends. -/
def pyStrip (s : List Char) : List Char :=
  ((s.dropWhile pySpace).reverse.dropWhile pySpace).reverse

/-- `listStartsWith pat s` : does `s` start with `pat`? -/
def listStartsWith : List Char → List Char → Bool
  | [], _ => true
  | _ :: _, [] => false
  | p :: ps, c :: cs => p = c && listStartsWith ps cs

/-- `containsSub pat s` : does `pat` occur as a contiguous substring of `s`?
Models Python's `pat in s`. -/
def containsSub (pat : List Char) : List Char → Bool
  | [] => listStartsWith pat []
  | c :: cs => listStartsWith pat (c :: cs) || containsSub pat cs

/-- Fuel-driven worker for `removeOcc` (structural recursion on the fuel,
so that concrete runs reduce inside the kernel); with fuel at least the
length of the text the fallback first arm is never reached, because each
step strictly shortens the text. -/
def removeOccGo (tok : List Char) : Nat → List Char → List Char
  | 0, s => s
  | _ + 1, [] => []
  | fuel + 1, c :: rest =>
    if tok ≠ [] ∧ listStartsWith tok (c :: rest) then
      removeOccGo tok fuel ((c :: rest).drop tok.length)
    else
      c :: removeOccGo tok fuel rest

/-- One left-to-right pass removing every non-overlapping occurrence of
`tok`; models `re.sub(tok, "", s)` / `str.replace(tok, "")` for a literal
token. -/
def removeOcc (tok : List Char) (s : List Char) : List Char :=
  removeOccGo tok s.length s

/-- Numeric value of a digit character. -/
def digitVal (c : Char) : Nat := c.toNat - '0'.toNat

/-- Value of a decimal digit string, most significant first
(models what `int`/`float` compute on a digit literal). -/
def natVal (ds : List Char) : Nat :=
  ds.foldl (fun a c => 10 * a + digitVal c) 0

/-- Fuel-driven worker for `natDigitsRev`; with fuel at least `n` the
fallback first arm is only reached at `n = 0`. -/
def natDigitsRevGo : Nat → Nat → List Nat
  | 0, n => [n]
  | fuel + 1, n => if n < 10 then [n] else n % 10 :: natDigitsRevGo fuel (n / 10)

/-- Decimal digits of `n`, least significant first. -/
def natDigitsRev (n : Nat) : List Nat := natDigitsRevGo n n

/-- Render a natural number in decimal (no leading zeros except `"0"`). -/
def renderNat (n : Nat) : List Char :=
  ((natDigitsRev n).reverse).map (fun d => Char.ofNat ('0'.toNat + d))

/-- Render an integer in decimal, `'-'`-signed; models Python `str(int)`. -/
def renderInt (k : Int) : List Char :=
  if k < 0 then '-' :: renderNat (-k).toNat else renderNat k.toNat

/-- Python `str.zfill(n)` on a digit list: left-pad with `'0'` to width `n`,
keeping a leading sign in front of the padding. -/
def padZeros (n : Nat) (s : List Char) : List Char :=
  List.replicate (n - s.length) '0' ++ s

/-- Python `str.zfill(n)`. -/
def zfillChars (n : Nat) (s : List Char) : List Char :=
  match s with
  | c :: rest => if c = '+' ∨ c = '-' then c :: padZeros (n - 1) rest else padZeros n s
  | [] => padZeros n []

/-- Truncation of a rational toward zero; models Python `int(float)`. -/
def ratTrunc (q : ℚ) : Int := q.num.tdiv q.den

/-- Round-half-to-even of a rational to an integer. -/
def roundHalfEven (x : ℚ) : Int :=
  if x - ⌊x⌋ < 1 / 2 then ⌊x⌋
  else if x - ⌊x⌋ > 1 / 2 then ⌊x⌋ + 1
  else if ⌊x⌋ % 2 = 0 then ⌊x⌋ else ⌊x⌋ + 1

/-- Python `round(x, 2)` modelled exactly over `ℚ`. -/
def round2 (x : ℚ) : ℚ := (roundHalfEven (x * 100) : ℚ) / 100

/-- Parse an unsigned decimal literal (`digits`, `digits.digits`,
`.digits`, `digits.`); the fragment of Python `float()` exercised by the
pipeline. -/
def parseUnsigned (s : List Char) : Option ℚ :=
  let d1 := s.takeWhile Char.isDigit
  let r1 := s.dropWhile Char.isDigit
  match r1 with
  | [] => if d1 = [] then none else some ((natVal d1 : ℚ))
  | '.' :: r2 =>
    let d2 := r2.takeWhile Char.isDigit
    let r3 := r2.dropWhile Char.isDigit
    if (d1 = [] ∧ d2 = []) ∨ r3 ≠ [] then none
    else some ((natVal d1 : ℚ) + (natVal d2 : ℚ) / (10 : ℚ) ^ d2.length)
  | _ => none

/-- Python `float()` on the decimal literals arising in the pipeline
(optionally signed). `none` models a raised `ValueError`. -/
def parseFloat (s : List Char) : Option ℚ :=
  match s with
  | [] => parseUnsigned []
  | c :: rest =>
    if c = '-' then (parseUnsigned rest).map Neg.neg
    else if c = '+' then parseUnsigned rest
    else parseUnsigned (c :: rest)

/-! ## Weight extractor (`data_processing.extract_weight_with_packs`) -/

/-- The unit alternatives of the weight regex, in the source's alternation
order: `oz|ounces|ounce|fl\. oz\.|fluid ounce|fl oz|fluid ounces`
(lower-cased; matching is done on the lower-cased title, which models
`re.IGNORECASE`). -/
def unitSpellings : List (List Char) :=
  ["oz".data, "ounces".data, "ounce".data, "fl. oz.".data,
   "fluid ounce".data, "fl oz".data, "fluid ounces".data]

/-- First unit alternative (in alternation order) matching at the head of
`s`; returns the matched text. -/
def firstSpelling (s : List Char) : Option (List Char) :=
  unitSpellings.find? (fun u => listStartsWith u s)

/-- Match `(\d+(\.\d+)?)\s*(?:unit alternatives)` at the head of `s`
(greedy, which is exact here since no unit starts with a digit, a dot or
whitespace). Returns `(group 1, group 0)`: the number literal and the whole
matched text. -/
def unitMatchAt (s : List Char) : Option (List Char × List Char) :=
  let d1 := s.takeWhile Char.isDigit
  let r1 := s.dropWhile Char.isDigit
  if d1 = [] then none
  else
    let (numStr, r2) : List Char × List Char :=
      match r1 with
      | '.' :: r' =>
        let d2 := r'.takeWhile Char.isDigit
        if d2 = [] then (d1, r1) else (d1 ++ '.' :: d2, r'.dropWhile Char.isDigit)
      | _ => (d1, r1)
    let sp := r2.takeWhile pySpace
    let r3 := r2.dropWhile pySpace
    match firstSpelling r3 with
    | some u => some (numStr, numStr ++ sp ++ u)
    | none => none

/-- Leftmost match of the weight regex: try `unitMatchAt` at every position
from the left; models `re.search`. -/
def unitSearch : List Char → Option (List Char × List Char)
  | [] => unitMatchAt []
  | c :: rest =>
    match unitMatchAt (c :: rest) with
    | some m => some m
    | none => unitSearch rest

/-- A word/non-word boundary (`\b`) before the current position, given the
previous character. -/
def boundaryBefore (prev : Option Char) : Bool :=
  match prev with
  | none => true
  | some c => !wordChar c

/-- After-match `\b`: the next character is absent or a non-word character. -/
def boundaryAfter (s : List Char) : Bool :=
  match s with
  | [] => true
  | c :: _ => !wordChar c

/-- Match the pack regex `(?:\b(\d+)\s*pack\b|\bpack of\s*(\d+))` at the
head of `s` (branch 1 first, as in the source's alternation), `prev` being
the character before `s`. Returns the captured number's digits. -/
def packMatchAt (prev : Option Char) (s : List Char) : Option (List Char) :=
  let branch1 : Option (List Char) :=
    let d := s.takeWhile Char.isDigit
    let r := s.dropWhile Char.isDigit
    if d = [] ∨ ¬ boundaryBefore prev then none
    else
      let r2 := r.dropWhile pySpace
      if listStartsWith "pack".data r2 ∧ boundaryAfter (r2.drop 4) then some d else none
  let branch2 : Option (List Char) :=
    if ¬ (boundaryBefore prev ∧ listStartsWith "pack of".data s) then none
    else
      let r2 := (s.drop 7).dropWhile pySpace
      let d := r2.takeWhile Char.isDigit
      if d = [] then none else some d
  branch1 <|> branch2

/-- Leftmost match of the pack regex; models `re.search`. -/
def packSearch (prev : Option Char) : List Char → Option (List Char)
  | [] => packMatchAt prev []
  | c :: rest =>
    match packMatchAt prev (c :: rest) with
    | some m => some m
    | none => packSearch (some c) rest

/-- Numeric value of the captured decimal literal of group 1 (always of the
shape `digits` or `digits.digits`, so `float()` cannot fail on it). -/
def numOfLiteral (numStr : List Char) : ℚ :=
  (parseFloat numStr).getD 0

/-- `extract_weight_with_packs` (`modules/data_processing.py:7`): extract a
weight in pounds from a product title, considering pack sizes. Matching is
performed on the lower-cased title, modelling `re.IGNORECASE`; the
`try/except` wrapper is not represented because no reachable operation
raises (`float` is applied only to group 1, a valid literal, and `int` only
to captured digit groups). -/
def extract_weight_with_packs (title : String) : Option ℚ :=
  let s := title.data.map Char.toLower
  match unitSearch s with
  | none => none
  | some (numStr, g0) =>
    let single_weight : ℚ := numOfLiteral numStr
    let pack_size : ℚ :=
      match packSearch none s with
      | some d => (natVal d : ℚ)
      | none => 1
    let single_weight :=
      if containsSub "fl oz".data g0 then single_weight + 10 else single_weight + 6
    let total_weight := single_weight * pack_size / 16
    some (round2 total_weight)

/-! ## Shipping cost resolver (`excel_utils.calculate_shipping_cost`) -/

/-- One row of the shipping legend: minimum weight, maximum weight, cost
(columns `Weight Range Min (lb)`, `Weight Range Max (lb)`, `SHIPPING COST`).
-/
structure Band where
  wmin : ℚ
  wmax : ℚ
  cost : ℚ
deriving DecidableEq

/-- Scan of the legend rows in table order (the body of the `for` loop in
`calculate_shipping_cost`). -/
def findBand (w : ℚ) : List Band → Option ℚ
  | [] => none
  | b :: rest => if b.wmin ≤ w ∧ w ≤ b.wmax then some b.cost else findBand w rest

/-- `calculate_shipping_cost` (`modules/excel_utils.py:63`): `None` weight
resolves to `None`; otherwise the first band containing the weight
(inclusive on both ends) gives the cost, and no matching band gives `None`.
The `try/except` is not represented: with numeric bands and weight the
comparisons cannot raise. -/
def calculate_shipping_cost (weight : Option ℚ) (legend : List Band) : Option ℚ :=
  match weight with
  | none => none
  | some w => findBand w legend

/-! ## Cell values and field normalization (`data_processing.process_dataframes`) -/

/-- A pandas cell: missing (`NaN`/`None`), numeric, or string. -/
inductive Value where
  | vNull : Value
  | vNum : ℚ → Value
  | vStr : String → Value
deriving DecidableEq

/-- ASCII upper-casing; models Python `str.upper()` / `Series.str.upper()`
on the ASCII texts processed. -/
def strUpper (s : String) : String := String.mk (s.data.map Char.toUpper)

/-- Build a `String` back from a character list. -/
def strOfChars (l : List Char) : String := String.mk l

/-- `TITLE` cleanup (`data_processing.py:84`): remove the literal markup
tokens `(W+)`, `(SP)`, `(P)` in that order, then strip. -/
def cleanTitle (s : String) : String :=
  strOfChars (pyStrip (removeOcc "(P)".data (removeOcc "(SP)".data (removeOcc "(W+)".data s.data))))

/-- `SKU` cleanup (`data_processing.py:81`): drop commas, then strip
(the cell is already a string after `astype(str)`). -/
def cleanSku (s : String) : String :=
  strOfChars (pyStrip (s.data.filter (fun c => c ≠ ',')))

/-- `UPC/ISBN` cleanup (`data_processing.py:92`):
`str(int(float(x))) if pd.notnull(x) else ""` followed by `.str.zfill(12)`.
`none` models a raised `ValueError` (e.g. `float("")`). -/
def upcCell (v : Value) : Option String :=
  match v with
  | .vNull => some (strOfChars (zfillChars 12 []))
  | .vNum q => some (strOfChars (zfillChars 12 (renderInt (ratTrunc q))))
  | .vStr s => (parseFloat s.data).map (fun q => strOfChars (zfillChars 12 (renderInt (ratTrunc q))))

/-- `COST_PRICE` cleanup (`data_processing.py:98`): `astype(str)`, strip the
characters `$` and `,`, `astype(float)`, `round(2)`. The outer `Option` is
the raise channel (unparseable text), the inner one is nullability
(`NaN` stays `NaN` through `str`/`float`/`round`; a numeric cell round-trips
through its decimal representation). -/
def costNormalize (v : Value) : Option (Option ℚ) :=
  match v with
  | .vNull => some none
  | .vNum q => some (some (round2 q))
  | .vStr s => (parseFloat (s.data.filter (fun c => ¬(c = '$' ∨ c = ',')))).map
      (fun q => some (round2 q))

/-- The `RETAIL PRICE` row lambda (`data_processing.py:121`):
`round((cost + shipping + handling) * 1.35, 2)` unless one of the three is
null. -/
def retailRow (c s h : Option ℚ) : Option ℚ :=
  match c, s, h with
  | some cp, some sc, some hc => some (round2 ((cp + sc + hc) * 1.35))
  | _, _, _ => none

/-- The `MAX PRICE` lambda (`data_processing.py:131`):
`round(x * 1.35, 2)` unless `x` is null. (When pandas stores the null
retail as `NaN`, the lambda's `x is not None` test passes but
`round(NaN * 1.35, 2)` is again `NaN`, so the null-in/null-out modelling is
exact either way.) -/
def maxRow (r : Option ℚ) : Option ℚ := r.map (fun x => round2 (x * 1.35))

/-- Store an optional rational back into a (numeric-or-null) cell. -/
def optToValue (c : Option ℚ) : Value :=
  match c with
  | some q => Value.vNum q
  | none => Value.vNull

/-- One working-table row, with the canonical columns of
`process_dataframes` (input rows carry raw `Value`s in `upc`/`costPrice`;
derived columns are overwritten by processing). -/
structure Row where
  title : String
  brand : String
  sku : String
  upc : Value
  costPrice : Value
  handlingCost : Option ℚ
  quantity : ℚ
  itemLocation : String
  weightLb : Option ℚ
  shippingCost : Option ℚ
  retailPrice : Option ℚ
  minPrice : Option ℚ
  maxPrice : Option ℚ
deriving DecidableEq

/-- All per-row column transformations of `process_dataframes`
(lines 79–131) gathered row-wise: the pandas column operations act
independently on each row, so the column-by-column order of the source is
equivalent to this row-by-row form. `none` models a raised exception in any
cell coercion. -/
def normalizeRow (legend : List Band) (r : Row) : Option Row := do
  let title := cleanTitle r.title
  let sku := cleanSku r.sku
  let upc ← upcCell r.upc
  let cost ← costNormalize r.costPrice
  let w := extract_weight_with_packs title
  let sc := calculate_shipping_cost w legend
  let retail := retailRow cost sc (some (0.75 : ℚ))
  return { title := title, brand := r.brand, sku := sku, upc := Value.vStr upc,
           costPrice := optToValue cost, handlingCost := some (0.75 : ℚ),
           quantity := 1, itemLocation := "WALMART", weightLb := w,
           shippingCost := sc, retailPrice := retail, minPrice := retail,
           maxPrice := maxRow retail }

/-- Map a fallible function over a list, failing if any element fails
(the raise channel of column operations). -/
def mapOpt (f : α → Option β) : List α → Option (List β)
  | [] => some []
  | x :: xs =>
    match f x, mapOpt f xs with
    | some y, some ys => some (y :: ys)
    | _, _ => none

/-- `drop_duplicates` keeping the first occurrence, full-row equality
(`data_processing.py:134`); `seen` accumulates rows already kept. -/
def dropDupsAux [DecidableEq α] : List α → List α → List α
  | [], _ => []
  | x :: xs, seen =>
    if x ∈ seen then dropDupsAux xs seen else x :: dropDupsAux xs (x :: seen)

/-- `drop_duplicates` keeping the first occurrence. -/
def dropDups [DecidableEq α] (l : List α) : List α := dropDupsAux l []

/-- `process_dataframes` (`modules/data_processing.py:38`) up to and
including deduplication (everything before the final sort): concatenation,
optional blocked-brand filter (the brand list upper-cased, falsy entries
dropped), per-row normalization and derivation, duplicate removal. Returns
the pre-sort row list and the removed-row count; `none` models a raised
exception. The shipping legend is the supplied one (the
`shipping_legend is not None` branch; without a legend the cost columns are
never created and none of the claims apply). Column renaming
(lines 52–59) only rewrites raw header names to the canonical ones and is
the identity on this canonical-row representation.

`brandKept` is the blocked-brands filter of lines 62–75 (skipped when no
manager is supplied; the blocked list has falsy entries dropped and is
upper-cased for the comparison); the removed count `initial_len - len(df)`
is `all.length - kept.length`, which is `0` on the manager-less path
exactly as the source's untouched `removed_count = 0`. The source's
`try/except` around this filter only fires when the store read or the
`BRAND` column access fails, which the list-supplied model cannot. -/
def brandKept (blocked : Option (List String)) (all : List Row) : List Row :=
  match blocked with
  | none => all
  | some bl =>
    all.filter (fun r =>
      !(((bl.filter (fun b => b ≠ "")).map strUpper).contains (strUpper r.brand)))

/-- The body of `process_dataframes` up to deduplication: the empty-input
early return, concatenation, `brandKept`, per-row normalization, duplicate
removal; paired with the removed-row count. -/
def processPre (blocked : Option (List String)) (legend : List Band)
    (dfs : List (List Row)) : Option (List Row × Nat) :=
  if dfs.isEmpty then some ([], 0)
  else
    let all := dfs.flatten
    let kept := brandKept blocked all
    match mapOpt (normalizeRow legend) kept with
    | none => none
    | some rows => some (dropDups rows, all.length - kept.length)

/-- The sort key of the final ordering step (`data_processing.py:137`): the
temporary `Missing Weight` column. -/
def missingWeight (r : Row) : Bool := r.weightLb.isNone

/-- `out` is ordered by the `Missing Weight` key (ascending: rows with a
weight before rows without). -/
def keySorted (out : List Row) : Prop :=
  out.Pairwise (fun a b => missingWeight a = true → missingWeight b = true)

/-- The final `sort_values(by='Missing Weight')` (`data_processing.py:138`)
uses the pandas default `quicksort` kind, which guarantees only that the
result is a permutation ordered by the key — not which permutation. A list
`out` is a possible result of sorting `pre` iff it is a key-ordered
permutation of `pre`. -/
def validSortOutput (pre out : List Row) : Prop :=
  pre.Perm out ∧ keySorted out

/-- Full `process_dataframes` as a relation: `out` together with the
removed count is a possible result on input `dfs`. -/
def processOutputs (blocked : Option (List String)) (legend : List Band)
    (dfs : List (List Row)) (out : List Row) (removed : Nat) : Prop :=
  ∃ pre, processPre blocked legend dfs = some (pre, removed) ∧ validSortOutput pre out

/-! ## Block filter (`blocked_items.BlockedItemsManager`) -/

/-- A row of a frame handed to `filter_data`: the columns the filter reads. -/
structure FRow where
  brand : String
  sku : String
deriving DecidableEq

/-- A pandas frame as `filter_data` sees it: its rows plus the
`BRAND_UPPER` helper column when present (the column a call to
`filter_data` writes into its argument). -/
structure DFrame where
  rows : List FRow
  brandUpperCol : Option (List String)
deriving DecidableEq

/-- Result bundle of `filter_data`: the caller's frame after the call (the
function mutates its argument), the returned filtered frame, and the two
removal counts. -/
structure FilterResult where
  caller : DFrame
  result : DFrame
  brandsRemoved : Nat
  productsRemoved : Nat
deriving DecidableEq

/-- `BlockedItemsManager.filter_data` (`modules/blocked_items.py:152`).
The two block lists are passed as the column contents the manager reads
from its store (`get_blocked_brands` / `get_blocked_product_ids`); the
store files themselves are only read. Falsy (empty) entries are dropped
(`if pid` / `if brand`), brand entries are upper-cased, id entries are
stringified and stripped. The assignment
`df["BRAND_UPPER"] = df["BRAND"].str.upper()` mutates the caller's frame,
which the returned `caller` field records; `df_after_brands` and
`df_final` are fresh frames. -/
def filter_data (brands ids : List String) (df : DFrame) : FilterResult :=
  let initialLen := df.rows.length
  let blockedBrandsList := (brands.filter (fun b => b ≠ "")).map strUpper
  let callerAfter : DFrame :=
    { df with brandUpperCol := some (df.rows.map (fun r => strUpper r.brand)) }
  let afterBrands := df.rows.filter (fun r => !(blockedBrandsList.contains (strUpper r.brand)))
  let brandsRemoved := initialLen - afterBrands.length
  let blockedIdsList := (ids.filter (fun p => p ≠ "")).map (fun p => strOfChars (pyStrip p.data))
  let finalRows := afterBrands.filter (fun r => !(blockedIdsList.contains r.sku))
  let productsRemoved := afterBrands.length - finalRows.length
  { caller := callerAfter, result := { rows := finalRows, brandUpperCol := none },
    brandsRemoved := brandsRemoved, productsRemoved := productsRemoved }

/-- `BlockedItemsManager.add_brand` (`modules/blocked_items.py:61`),
with the stored `Blocked Brands` column passed in and the updated column
returned (the function reads it from and writes it back to the brands
file). Returns `(success, message, stored-after)`. -/
def add_brand (stored : List String) (brand : String) : Bool × String × List String :=
  if brand = "" ∨ strOfChars (pyStrip brand.data) = "" then
    (false, "Please enter a valid brand name.", stored)
  else
    let b := strOfChars (pyStrip brand.data)
    if stored.contains b then
      (false, s!"The brand '{b}' is already in the blocked list.", stored)
    else
      (true, s!"Brand '{b}' has been added to the blocked list.", stored ++ [b])

/-! ## Excel reader (`excel_utils.read_excel_file`) -/

/-- One sheet of an uploaded workbook: its name and its column headers
(the data cells play no role in scheme selection). -/
structure Sheet where
  name : String
  cols : List String
deriving DecidableEq

/-- The two column-mapping schemes of `read_excel_file`
(`modules/excel_utils.py:17`), in priority order; note the trailing space
in `"Price "`. Each pair is (source column, canonical column). -/
def columnMappings : List (List (String × String)) :=
  [[("Product Details", "TITLE"), ("Brand", "BRAND"), ("Product ID", "SKU"),
    ("UPC Code", "UPC/ISBN"), ("Price ", "COST_PRICE")],
   [("TITLE", "TITLE"), ("Brand", "BRAND"), ("SKU", "SKU"),
    ("UPC/ISBN", "UPC/ISBN"), ("COST_PRICE", "COST_PRICE")]]

/-- Does every source column of the mapping occur in the sheet? -/
def mappingMatches (m : List (String × String)) (sh : Sheet) : Bool :=
  m.all (fun kv => sh.cols.contains kv.1)

/-- The first scheme (in priority order) matching the sheet, if any —
the inner `for mapping in column_mappings: ... break` loop. -/
def selectMapping (sh : Sheet) : Option (List (String × String)) :=
  columnMappings.find? (fun m => mappingMatches m sh)

/-- A sheet's contribution once a scheme matched: the sheet renamed to the
canonical columns of the matched scheme. -/
structure AppliedSheet where
  sheetName : String
  canonicalCols : List String
deriving DecidableEq

/-- The missing-column variations listed in the error message: for each
scheme, its source columns absent from the sheet, concatenated and
deduplicated. (The source deduplicates through a Python `set`, whose
iteration order is unspecified; first-occurrence order stands in for it,
and no theorem depends on the order.) -/
def missingVariations (sh : Sheet) : List String :=
  dropDups (columnMappings.flatMap
    (fun m => (m.map Prod.fst).filter (fun c => !(sh.cols.contains c))))

/-- The formatted per-sheet error message (`excel_utils.py:53`). -/
def sheetErrorMsg (sh : Sheet) : String :=
  s!"Required columns not found in sheet '{sh.name}'. Missing one of these variations: "
    ++ String.intercalate ", " (missingVariations sh)

/-- The sheet loop of `read_excel_file`: accumulate each matched sheet's
contribution; a sheet with no matching scheme makes the whole call return
the error immediately. -/
def readSheets : List Sheet → List AppliedSheet → Except String (List AppliedSheet)
  | [], acc =>
    if acc.isEmpty then Except.error "No valid data found in any sheet"
    else Except.ok acc
  | sh :: rest, acc =>
    match selectMapping sh with
    | some m => readSheets rest (acc ++ [⟨sh.name, m.map Prod.snd⟩])
    | none => Except.error (sheetErrorMsg sh)

/-- `read_excel_file` (`modules/excel_utils.py:6`): either the concatenated
contributions of all sheets (in order) or an error message. The
`except`-clause for I/O failures of `pd.ExcelFile`/`pd.read_excel` is not
represented; sheets are given as parsed column structures. -/
def read_excel_file (sheets : List Sheet) : Except String (List AppliedSheet) :=
  readSheets sheets []

/-! ## Basic lemmas about the string utilities -/

theorem dropWhile_dropWhile (p : Char → Bool) (l : List Char) :
    (l.dropWhile p).dropWhile p = l.dropWhile p := by
  induction l with
  | nil => rfl
  | cons c cs ih =>
    by_cases h : p c
    · simp [List.dropWhile_cons, h, ih]
    · simp [List.dropWhile_cons, h]

theorem dropWhile_cons_self {p : Char → Bool} {c : Char} {rest : List Char}
    (h : (c :: rest).dropWhile p = c :: rest) : p c = false := by
  by_contra hc
  rw [List.dropWhile_cons] at h
  simp only [ne_eq, Bool.not_eq_false] at hc
  rw [if_pos hc] at h
  have hlen := congrArg List.length h
  have hle : (rest.dropWhile p).length ≤ rest.length :=
    (List.dropWhile_sublist p).length_le
  simp only [List.length_cons] at hlen
  omega

theorem dropWhile_eq_self_left {p : Char → Bool} {l r j : List Char}
    (hl : l.dropWhile p = l) (hlr : l = r ++ j) : r.dropWhile p = r := by
  cases r with
  | nil => rfl
  | cons c cs =>
    have hc : p c = false := by
      have hx : (c :: (cs ++ j)).dropWhile p = c :: (cs ++ j) := by
        rw [List.cons_append] at hlr
        rw [← hlr]
        exact hl
      exact dropWhile_cons_self hx
    simp [List.dropWhile_cons, hc]

theorem pyStrip_front (s : List Char) : (pyStrip s).dropWhile pySpace = pyStrip s := by
  unfold pyStrip
  set u := s.dropWhile pySpace with hu
  have hfu : u.dropWhile pySpace = u := by rw [hu]; exact dropWhile_dropWhile _ _
  have hsplit : u = ((u.reverse.dropWhile pySpace).reverse : List Char)
      ++ (u.reverse.takeWhile pySpace).reverse := by
    rw [← List.reverse_append, List.takeWhile_append_dropWhile, List.reverse_reverse]
  exact dropWhile_eq_self_left hfu hsplit

theorem pyStrip_of_trimmed {l : List Char}
    (h1 : l.dropWhile pySpace = l) (h2 : l.reverse.dropWhile pySpace = l.reverse) :
    pyStrip l = l := by
  unfold pyStrip
  rw [h1, h2, List.reverse_reverse]

theorem pyStrip_idem (s : List Char) : pyStrip (pyStrip s) = pyStrip s := by
  apply pyStrip_of_trimmed
  · exact pyStrip_front s
  · show (pyStrip s).reverse.dropWhile pySpace = (pyStrip s).reverse
    unfold pyStrip
    rw [List.reverse_reverse]
    exact dropWhile_dropWhile _ _

theorem listStartsWith_false_of_not_contains {tok s : List Char}
    (h : containsSub tok s = false) : listStartsWith tok s = false := by
  cases s with
  | nil => simpa [containsSub] using h
  | cons c cs =>
    unfold containsSub at h
    exact (Bool.or_eq_false_iff.mp h).1

theorem containsSub_tail {tok : List Char} {c : Char} {cs : List Char}
    (h : containsSub tok (c :: cs) = false) : containsSub tok cs = false := by
  unfold containsSub at h
  exact (Bool.or_eq_false_iff.mp h).2

theorem removeOccGo_of_not_contains {tok : List Char} :
    ∀ (fuel : Nat) (s : List Char), containsSub tok s = false →
      removeOccGo tok fuel s = s := by
  intro fuel
  induction fuel with
  | zero => intro s _; rfl
  | succ f ih =>
    intro s h
    cases s with
    | nil => rfl
    | cons c cs =>
      rw [removeOccGo]
      have hs : listStartsWith tok (c :: cs) = false := listStartsWith_false_of_not_contains h
      rw [if_neg (by simp [hs])]
      rw [ih cs (containsSub_tail h)]

theorem removeOcc_of_not_contains {tok : List Char} (s : List Char)
    (h : containsSub tok s = false) : removeOcc tok s = s :=
  removeOccGo_of_not_contains s.length s h

theorem filter_idem {p : Char → Bool} (l : List Char) :
    (l.filter p).filter p = l.filter p := by
  rw [List.filter_filter]
  simp

/-! ## Lemmas about decimal rendering and parsing -/

theorem natVal_replicate_zero (m : Nat) (ds : List Char) :
    natVal (List.replicate m '0' ++ ds) = natVal ds := by
  induction m with
  | zero => simp
  | succ k ih =>
    unfold natVal at *
    rw [List.replicate_succ, List.cons_append, List.foldl_cons]
    simpa [digitVal] using ih

theorem natVal_padZeros (n : Nat) (ds : List Char) :
    natVal (padZeros n ds) = natVal ds := natVal_replicate_zero _ _

/-- Digits-first-significant value used to reason about `renderNat`. -/
def valRev (ds : List Nat) : Nat := ds.foldr (fun d a => 10 * a + d) 0

theorem valRev_natDigitsRevGo :
    ∀ (fuel n : Nat), n ≤ fuel → valRev (natDigitsRevGo fuel n) = n := by
  intro fuel
  induction fuel with
  | zero =>
    intro n hn
    have : n = 0 := Nat.le_zero.mp hn
    subst this
    rfl
  | succ f ih =>
    intro n hn
    rw [natDigitsRevGo]
    by_cases h : n < 10
    · simp [h, valRev]
    · rw [if_neg h]
      have hd : n / 10 ≤ f := by
        have : n / 10 < n := Nat.div_lt_self (by omega) (by omega)
        omega
      unfold valRev at *
      rw [List.foldr_cons, ih (n / 10) hd]
      omega

theorem valRev_natDigitsRev (n : Nat) : valRev (natDigitsRev n) = n :=
  valRev_natDigitsRevGo n n (Nat.le_refl n)

theorem natDigitsRevGo_lt :
    ∀ (fuel n : Nat), n ≤ fuel → ∀ d ∈ natDigitsRevGo fuel n, d < 10 := by
  intro fuel
  induction fuel with
  | zero =>
    intro n hn d hd
    have : n = 0 := Nat.le_zero.mp hn
    subst this
    simp [natDigitsRevGo] at hd
    omega
  | succ f ih =>
    intro n hn d hd
    rw [natDigitsRevGo] at hd
    by_cases h : n < 10
    · rw [if_pos h] at hd
      simp at hd
      omega
    · rw [if_neg h] at hd
      rcases List.mem_cons.mp hd with h1 | h2
      · subst h1
        exact Nat.mod_lt _ (by omega)
      · have hdd : n / 10 ≤ f := by
          have : n / 10 < n := Nat.div_lt_self (by omega) (by omega)
          omega
        exact ih (n / 10) hdd d h2

theorem natDigitsRev_lt (n : Nat) : ∀ d ∈ natDigitsRev n, d < 10 :=
  natDigitsRevGo_lt n n (Nat.le_refl n)

theorem digitVal_ofNat {d : Nat} (h : d < 10) :
    digitVal (Char.ofNat ('0'.toNat + d)) = d := by
  interval_cases d <;> rfl

theorem isDigit_ofNat {d : Nat} (h : d < 10) :
    (Char.ofNat ('0'.toNat + d)).isDigit = true := by
  interval_cases d <;> rfl

theorem natVal_renderNat (n : Nat) : natVal (renderNat n) = n := by
  unfold renderNat natVal
  rw [List.foldl_map, List.foldl_reverse]
  have : ∀ ds : List Nat, (∀ d ∈ ds, d < 10) →
      ds.foldr (fun x y => 10 * y + digitVal (Char.ofNat ('0'.toNat + x))) 0 = valRev ds := by
    intro ds hds
    induction ds with
    | nil => rfl
    | cons d rest ih =>
      unfold valRev at *
      rw [List.foldr_cons, List.foldr_cons, ih (fun x hx => hds x (List.mem_cons_of_mem _ hx))]
      rw [digitVal_ofNat (hds d (List.mem_cons_self _ _))]
  rw [this _ (natDigitsRev_lt n), valRev_natDigitsRev]

theorem natDigitsRevGo_ne_nil (fuel n : Nat) : natDigitsRevGo fuel n ≠ [] := by
  cases fuel with
  | zero => simp [natDigitsRevGo]
  | succ f =>
    rw [natDigitsRevGo]
    by_cases h : n < 10 <;> simp [h]

theorem renderNat_ne_nil (n : Nat) : renderNat n ≠ [] := by
  unfold renderNat natDigitsRev
  simp [natDigitsRevGo_ne_nil]

theorem renderNat_digits (n : Nat) : ∀ c ∈ renderNat n, c.isDigit = true := by
  unfold renderNat
  intro c hc
  rcases List.mem_map.mp hc with ⟨d, hd, rfl⟩
  exact isDigit_ofNat (natDigitsRev_lt n d (List.mem_reverse.mp hd))

/-! ## Lemmas about `parseFloat`, truncation and rounding -/

theorem parseUnsigned_digits {s : List Char} (h1 : ∀ c ∈ s, c.isDigit = true)
    (h2 : s ≠ []) : parseUnsigned s = some ((natVal s : ℚ)) := by
  unfold parseUnsigned
  have ht : s.takeWhile Char.isDigit = s := List.takeWhile_eq_self_iff.mpr h1
  have hd : s.dropWhile Char.isDigit = [] := List.dropWhile_eq_nil_iff.mpr h1
  rw [ht, hd]
  simp [h2]

theorem digit_not_sign {c : Char} (h : c.isDigit = true) : ¬(c = '+' ∨ c = '-') := by
  rintro (rfl | rfl) <;> exact absurd h (by decide)

theorem parseFloat_cons (c : Char) (cs : List Char) :
    parseFloat (c :: cs) = if c = '-' then (parseUnsigned cs).map Neg.neg
      else if c = '+' then parseUnsigned cs else parseUnsigned (c :: cs) := rfl

theorem zfillChars_cons (n : Nat) (c : Char) (cs : List Char) :
    zfillChars n (c :: cs) =
      if c = '+' ∨ c = '-' then c :: padZeros (n - 1) cs else padZeros n (c :: cs) := rfl

theorem parseFloat_digits {s : List Char} (h1 : ∀ c ∈ s, c.isDigit = true)
    (h2 : s ≠ []) : parseFloat s = some ((natVal s : ℚ)) := by
  cases s with
  | nil => exact absurd rfl h2
  | cons c cs =>
    have hc := h1 c (List.mem_cons_self _ _)
    have hns := digit_not_sign hc
    rw [parseFloat_cons]
    rw [if_neg (fun h => hns (Or.inr h)), if_neg (fun h => hns (Or.inl h))]
    exact parseUnsigned_digits h1 h2

theorem padZeros_digits {n : Nat} {ds : List Char} (h : ∀ c ∈ ds, c.isDigit = true) :
    ∀ c ∈ padZeros n ds, c.isDigit = true := by
  intro c hc
  rcases List.mem_append.mp hc with hl | hr
  · rw [List.eq_of_mem_replicate hl]; decide
  · exact h c hr

theorem padZeros_ne_nil {n : Nat} {ds : List Char} (h : ds ≠ []) : padZeros n ds ≠ [] := by
  unfold padZeros
  intro hcon
  exact h (List.append_eq_nil.mp hcon).2

theorem zfillChars_of_digits {n : Nat} {ds : List Char}
    (h : ∀ c ∈ ds, c.isDigit = true) (hne : ds ≠ []) :
    zfillChars n ds = padZeros n ds := by
  cases ds with
  | nil => exact absurd rfl hne
  | cons c cs =>
    rw [zfillChars_cons, if_neg (digit_not_sign (h c (List.mem_cons_self _ _)))]

theorem ratTrunc_intCast (k : ℤ) : ratTrunc ((k : ℤ) : ℚ) = k := by
  unfold ratTrunc
  rw [Rat.num_intCast, Rat.den_intCast]
  norm_num [Int.tdiv_one]

theorem ratTrunc_natCast (m : ℕ) : ratTrunc ((m : ℕ) : ℚ) = (m : ℤ) := by
  have : ((m : ℕ) : ℚ) = (((m : ℤ) : ℤ) : ℚ) := by push_cast; ring
  rw [this, ratTrunc_intCast]

theorem ratTrunc_neg_natCast (m : ℕ) : ratTrunc (-((m : ℕ) : ℚ)) = -(m : ℤ) := by
  have : (-((m : ℕ) : ℚ)) = (((-(m : ℤ)) : ℤ) : ℚ) := by push_cast; ring
  rw [this, ratTrunc_intCast]

theorem roundHalfEven_intCast (k : ℤ) : roundHalfEven ((k : ℤ) : ℚ) = k := by
  unfold roundHalfEven
  rw [Int.floor_intCast]
  norm_num

theorem round2_idem (x : ℚ) : round2 (round2 x) = round2 x := by
  unfold round2
  rw [div_mul_cancel₀ _ (by norm_num : (100 : ℚ) ≠ 0), roundHalfEven_intCast]

/-- The `UPC/ISBN` column entries produced by a run are fixed points of the
`UPC/ISBN` cleanup: `float` of a zero-padded decimal string recovers the
number, truncation and re-rendering reproduce it, and re-padding restores
the padding. -/
theorem upcCell_fix (k : ℤ) :
    upcCell (Value.vStr (strOfChars (zfillChars 12 (renderInt k)))) =
      some (strOfChars (zfillChars 12 (renderInt k))) := by
  by_cases hk : k < 0
  · have hren : renderInt k = '-' :: renderNat (-k).toNat := by
      unfold renderInt; rw [if_pos hk]
    set m := (-k).toNat with hm
    have hz : zfillChars 12 (renderInt k) = '-' :: padZeros 11 (renderNat m) := by
      rw [hren, zfillChars_cons, if_pos (Or.inr rfl)]
    have hdata : (strOfChars ('-' :: padZeros 11 (renderNat m))).data
        = '-' :: padZeros 11 (renderNat m) := rfl
    rw [hz]
    show (parseFloat (strOfChars ('-' :: padZeros 11 (renderNat m))).data).map _ = _
    rw [hdata]
    rw [parseFloat_cons, if_pos rfl]
    rw [parseUnsigned_digits (padZeros_digits (renderNat_digits m))
      (padZeros_ne_nil (renderNat_ne_nil m))]
    rw [natVal_padZeros, natVal_renderNat]
    simp only [Option.map_map, Option.map_some', Function.comp_apply]
    rw [ratTrunc_neg_natCast]
    have hmk : -((m : ℕ) : ℤ) = k := by
      rw [hm, Int.toNat_of_nonneg (by omega)]; ring
    rw [hmk, hren, zfillChars_cons, if_pos (Or.inr rfl)]
  · have hren : renderInt k = renderNat k.toNat := by
      unfold renderInt; rw [if_neg hk]
    set m := k.toNat with hm
    have hz : zfillChars 12 (renderInt k) = padZeros 12 (renderNat m) := by
      rw [hren]; exact zfillChars_of_digits (renderNat_digits m) (renderNat_ne_nil m)
    rw [hz]
    show (parseFloat (strOfChars (padZeros 12 (renderNat m))).data).map _ = _
    have hdata : (strOfChars (padZeros 12 (renderNat m))).data
        = padZeros 12 (renderNat m) := rfl
    rw [hdata]
    rw [parseFloat_digits (padZeros_digits (renderNat_digits m))
      (padZeros_ne_nil (renderNat_ne_nil m))]
    rw [natVal_padZeros, natVal_renderNat]
    simp only [Option.map_some']
    rw [ratTrunc_natCast]
    have hmk : ((m : ℕ) : ℤ) = k := by rw [hm, Int.toNat_of_nonneg (by omega)]
    rw [hmk, hz]

/-! ## Lemmas about `dropDups` and `mapOpt` -/

theorem dropDupsAux_mem {α} [DecidableEq α] :
    ∀ (l seen : List α) (x : α), x ∈ dropDupsAux l seen → x ∈ l := by
  intro l
  induction l with
  | nil => intro seen x hx; exact absurd hx (by simp [dropDupsAux])
  | cons a as ih =>
    intro seen x hx
    rw [dropDupsAux] at hx
    by_cases ha : a ∈ seen
    · rw [if_pos ha] at hx
      exact List.mem_cons_of_mem _ (ih _ _ hx)
    · rw [if_neg ha] at hx
      rcases List.mem_cons.mp hx with rfl | hx'
      · exact List.mem_cons_self _ _
      · exact List.mem_cons_of_mem _ (ih _ _ hx')

theorem dropDupsAux_nodup {α} [DecidableEq α] :
    ∀ (l seen : List α), (dropDupsAux l seen).Nodup ∧ ∀ x ∈ dropDupsAux l seen, x ∉ seen := by
  intro l
  induction l with
  | nil => intro seen; constructor
           · simp [dropDupsAux]
           · intro x hx; exact absurd hx (by simp [dropDupsAux])
  | cons a as ih =>
    intro seen
    rw [dropDupsAux]
    by_cases ha : a ∈ seen
    · rw [if_pos ha]; exact ih seen
    · rw [if_neg ha]
      obtain ⟨hnd, hmem⟩ := ih (a :: seen)
      refine ⟨List.nodup_cons.mpr ⟨fun hmm => ?_, hnd⟩, ?_⟩
      · exact (hmem a hmm) (List.mem_cons_self _ _)
      · intro x hx
        rcases List.mem_cons.mp hx with rfl | hx'
        · exact ha
        · intro hxs; exact (hmem x hx') (List.mem_cons_of_mem _ hxs)

theorem dropDups_nodup {α} [DecidableEq α] (l : List α) : (dropDups l).Nodup :=
  (dropDupsAux_nodup l []).1

theorem dropDups_mem {α} [DecidableEq α] {l : List α} {x : α}
    (h : x ∈ dropDups l) : x ∈ l := dropDupsAux_mem l [] x h

theorem dropDupsAux_of_nodup {α} [DecidableEq α] :
    ∀ (l seen : List α), l.Nodup → (∀ x ∈ l, x ∉ seen) → dropDupsAux l seen = l := by
  intro l
  induction l with
  | nil => intro seen _ _; rfl
  | cons a as ih =>
    intro seen hnd hdisj
    rw [dropDupsAux, if_neg (hdisj a (List.mem_cons_self _ _))]
    congr 1
    apply ih _ (List.nodup_cons.mp hnd).2
    intro x hx
    intro hxs
    rcases List.mem_cons.mp hxs with rfl | hxs'
    · exact (List.nodup_cons.mp hnd).1 hx
    · exact hdisj x (List.mem_cons_of_mem _ hx) hxs'

theorem dropDups_of_nodup {α} [DecidableEq α] {l : List α} (h : l.Nodup) :
    dropDups l = l :=
  dropDupsAux_of_nodup l [] h (by simp)

theorem mapOpt_some_mem {α β} {f : α → Option β} :
    ∀ {l : List α} {ys : List β}, mapOpt f l = some ys →
      ∀ y ∈ ys, ∃ x ∈ l, f x = some y := by
  intro l
  induction l with
  | nil =>
    intro ys h y hy
    rw [mapOpt] at h
    cases h
    exact absurd hy (by simp)
  | cons a as ih =>
    intro ys h y hy
    rw [mapOpt] at h
    cases hfa : f a with
    | none => rw [hfa] at h; exact absurd h (by simp)
    | some b =>
      rw [hfa] at h
      cases hfs : mapOpt f as with
      | none => rw [hfs] at h; exact absurd h (by simp)
      | some bs =>
        rw [hfs] at h
        cases h
        rcases List.mem_cons.mp hy with rfl | hy'
        · exact ⟨a, List.mem_cons_self _ _, hfa⟩
        · obtain ⟨x, hx, hfx⟩ := ih hfs y hy'
          exact ⟨x, List.mem_cons_of_mem _ hx, hfx⟩

theorem mapOpt_fix {α} {f : α → Option α} :
    ∀ {l : List α}, (∀ x ∈ l, f x = some x) → mapOpt f l = some l := by
  intro l
  induction l with
  | nil => intro _; rfl
  | cons a as ih =>
    intro h
    rw [mapOpt, h a (List.mem_cons_self _ _), ih (fun x hx => h x (List.mem_cons_of_mem _ hx))]

/-! ## Claim C1: the weight extractor formula -/

/-- The weight value as the specification words it (spec §4.1, claim C1):
`round(((N + A) × K) / 16, 2)` where `N` is the number of the first
number-then-unit match, `A` is 10 when the matched text contains `"fl oz"`
and 6 otherwise, and `K` is the number of the first pack pattern or 1;
`"not found"` (`none`) when there is no unit match. -/
def specWeightFormula (title : String) : Option ℚ :=
  let s := title.data.map Char.toLower
  match unitSearch s with
  | none => none
  | some (numStr, matched) =>
    let n := numOfLiteral numStr
    let a : ℚ := if containsSub "fl oz".data matched then 10 else 6
    let k : ℚ :=
      match packSearch none s with
      | some d => (natVal d : ℚ)
      | none => 1
    some (round2 ((n + a) * k / 16))

/-- **C1** (confirmed). For every title: the extractor returns
`round(((N + A) × K) / 16, 2)` pounds when a numeric quantity followed
(up to whitespace) by a recognized unit spelling occurs, with `N` the
number of the first such match, `A = 10` iff the matched text contains
`"fl oz"` (else 6) and `K` the first pack count (default 1); with no unit
match it returns `none`; it never raises (its embedding is total, and no
reachable parse can fail: group 1 is always a valid float literal). -/
theorem claim_C1 (title : String) :
    extract_weight_with_packs title = specWeightFormula title := by
  unfold extract_weight_with_packs specWeightFormula
  cases h : unitSearch (List.map Char.toLower title.data) with
  | none => simp only [h]
  | some m =>
    obtain ⟨numStr, g0⟩ := m
    simp only [h]
    by_cases hc : containsSub "fl oz".data g0 = true
    · simp only [hc, if_true]
    · simp only [Bool.not_eq_true] at hc
      simp only [hc, Bool.false_eq_true, if_false]

/-! ## Claim C2: the shipping cost resolver -/

/-- **C2** (confirmed). The resolver returns `none` for a missing weight;
otherwise it returns the cost of the first band (in table order) whose
inclusive range contains the weight, `none` when no band matches; at a
boundary shared by two consecutive bands the earlier band's cost wins. -/
theorem claim_C2 (w : ℚ) (legend : List Band) :
    calculate_shipping_cost none legend = none ∧
    calculate_shipping_cost (some w) legend =
      (legend.find? (fun b => decide (b.wmin ≤ w ∧ w ≤ b.wmax))).map Band.cost ∧
    (∀ b1 b2 rest, b1.wmin ≤ w → b1.wmax = w → b2.wmin = w →
      calculate_shipping_cost (some w) (b1 :: b2 :: rest) = some b1.cost) := by
  refine ⟨rfl, ?_, ?_⟩
  · show findBand w legend = _
    induction legend with
    | nil => rfl
    | cons b rest ih =>
      by_cases h : b.wmin ≤ w ∧ w ≤ b.wmax
      · rw [findBand, if_pos h, List.find?_cons_of_pos _ (by simpa using h)]
        rfl
      · rw [findBand, if_neg h, List.find?_cons_of_neg _ (by simpa using h)]
        exact ih
  · intro b1 b2 rest h1 h2 h3
    show findBand w (b1 :: b2 :: rest) = some b1.cost
    rw [findBand, if_pos ⟨h1, le_of_eq h2.symm⟩]

/-- Witness for C2, at the spec's own example table
`[(0,1,5.00),(1,2,7.50)]` and the shared boundary weight `1`. -/
theorem claim_C2_witness :
    calculate_shipping_cost none [⟨0, 1, 5⟩, ⟨1, 2, 15/2⟩] = none ∧
    calculate_shipping_cost (some 1) [⟨0, 1, 5⟩, ⟨1, 2, 15/2⟩] = some 5 := by
  have h := claim_C2 1 [⟨0, 1, 5⟩, ⟨1, 2, 15/2⟩]
  refine ⟨h.1, ?_⟩
  have hb := h.2.2 ⟨0, 1, 5⟩ ⟨1, 2, 15/2⟩ [] (by norm_num) (by norm_num) (by norm_num)
  exact hb

/-! ## Claim C3: the pricing chain -/

/-- Read a numeric-or-null cell back as an optional number (how the
`RETAIL PRICE` lambda sees the `COST_PRICE` column). -/
def valueOpt : Value → Option ℚ
  | Value.vNum q => some q
  | _ => none

theorem valueOpt_optToValue (c : Option ℚ) : valueOpt (optToValue c) = c := by
  cases c <;> rfl

/-- Modelled from the spec words (§4.5 / claim C3): retail price is
`round((cost + shipping + handling) × 1.35, 2)` iff all three operands are
non-null, else null. -/
def specRetailFormula (c s h : Option ℚ) : Option ℚ :=
  match c, s, h with
  | some a, some b, some d => some (round2 ((a + b + d) * 1.35))
  | _, _, _ => none

/-- Modelled from the spec words (§4.5 / claim C3): max price is
`round(retail × 1.35, 2)` iff retail is non-null, else null. -/
def specMaxFormula (r : Option ℚ) : Option ℚ :=
  match r with
  | some x => some (round2 (x * 1.35))
  | none => none

theorem retailRow_eq_spec (c s h : Option ℚ) :
    retailRow c s h = specRetailFormula c s h := by
  cases c <;> cases s <;> cases h <;> rfl

theorem maxRow_eq_spec (r : Option ℚ) : maxRow r = specMaxFormula r := by
  cases r <;> rfl

/-- Inversion of a successful `normalizeRow`. -/
theorem normalizeRow_inv {legend : List Band} {r r' : Row}
    (h : normalizeRow legend r = some r') :
    ∃ u c, upcCell r.upc = some u ∧ costNormalize r.costPrice = some c ∧
      r' = { title := cleanTitle r.title, brand := r.brand, sku := cleanSku r.sku,
             upc := Value.vStr u, costPrice := optToValue c,
             handlingCost := some (0.75 : ℚ), quantity := 1,
             itemLocation := "WALMART",
             weightLb := extract_weight_with_packs (cleanTitle r.title),
             shippingCost := calculate_shipping_cost
               (extract_weight_with_packs (cleanTitle r.title)) legend,
             retailPrice := retailRow c (calculate_shipping_cost
               (extract_weight_with_packs (cleanTitle r.title)) legend) (some (0.75 : ℚ)),
             minPrice := retailRow c (calculate_shipping_cost
               (extract_weight_with_packs (cleanTitle r.title)) legend) (some (0.75 : ℚ)),
             maxPrice := maxRow (retailRow c (calculate_shipping_cost
               (extract_weight_with_packs (cleanTitle r.title)) legend) (some (0.75 : ℚ))) } := by
  unfold normalizeRow at h
  cases hu : upcCell r.upc with
  | none => rw [hu] at h; exact absurd h (by simp)
  | some u =>
    rw [hu] at h
    cases hc : costNormalize r.costPrice with
    | none => rw [hc] at h; exact absurd h (by simp)
    | some c =>
      rw [hc] at h
      simp only [Option.bind_eq_bind, Option.some_bind, Option.pure_def,
        Option.some_inj] at h
      exact ⟨u, c, rfl, rfl, h.symm⟩

/-- Membership inversion for `processPre`: every pre-sort output row is the
normalization of some input row that survived the brand filter. -/
theorem processPre_mem {blocked : Option (List String)} {legend : List Band}
    {dfs : List (List Row)} {pre : List Row} {n : Nat}
    (h : processPre blocked legend dfs = some (pre, n)) {r : Row} (hr : r ∈ pre) :
    ∃ s, s ∈ dfs.flatten ∧ normalizeRow legend s = some r ∧
      (∀ bl, blocked = some bl →
        ((bl.filter (fun b => b ≠ "")).map strUpper).contains (strUpper s.brand) = false) := by
  unfold processPre at h
  by_cases hdfs : dfs.isEmpty
  · rw [if_pos hdfs] at h
    cases h
    exact absurd hr (by simp)
  · rw [if_neg hdfs] at h
    simp only at h
    cases hmap : mapOpt (normalizeRow legend) (brandKept blocked dfs.flatten) with
    | none => rw [hmap] at h; exact absurd h (by simp)
    | some rows =>
      rw [hmap] at h
      simp only [Option.some_inj, Prod.mk.injEq] at h
      obtain ⟨hpre, _⟩ := h
      subst hpre
      obtain ⟨s, hs, hns⟩ := mapOpt_some_mem hmap r (dropDups_mem hr)
      cases blocked with
      | none => exact ⟨s, hs, hns, fun bl hbl => by cases hbl⟩
      | some bl =>
        obtain ⟨hsmem, hskept⟩ := List.mem_filter.mp hs
        refine ⟨s, hsmem, hns, fun bl' hbl' => ?_⟩
        cases hbl'
        simpa using hskept

/-- **C3** (confirmed). In every possible output of the assembler, each
row's retail price is `round((cost + shipping + handling) × 1.35, 2)` iff
all three operands are non-null (else null, never partially computed), its
min price equals its retail price, and its max price is
`round(retail × 1.35, 2)` iff retail is non-null (else null). -/
theorem claim_C3 (blocked : Option (List String)) (legend : List Band)
    (dfs : List (List Row)) (out : List Row) (removed : Nat)
    (h : processOutputs blocked legend dfs out removed) :
    ∀ r ∈ out,
      r.retailPrice = specRetailFormula (valueOpt r.costPrice) r.shippingCost r.handlingCost ∧
      r.minPrice = r.retailPrice ∧
      r.maxPrice = specMaxFormula r.retailPrice := by
  obtain ⟨pre, hpre, hperm, _⟩ := h
  intro r hr
  have hrpre : r ∈ pre := hperm.mem_iff.mpr hr
  obtain ⟨s, _, hns, _⟩ := processPre_mem hpre hrpre
  obtain ⟨u, c, _, _, hr'⟩ := normalizeRow_inv hns
  subst hr'
  refine ⟨?_, rfl, ?_⟩
  · simp only [valueOpt_optToValue]
    exact retailRow_eq_spec _ _ _
  · exact maxRow_eq_spec _

/-- A concrete input row for the C3 witness run (no extractable weight,
null cost). -/
def c3In : Row :=
  ⟨"acme soap", "B", "1", Value.vNull, Value.vNull, none, 0, "", none, none, none, none, none⟩

/-- The row the pipeline produces from `c3In`: weight, shipping and all
price fields null. -/
def c3Out : Row :=
  ⟨"acme soap", "B", "1", Value.vStr "000000000000", Value.vNull, some 0.75, 1,
   "WALMART", none, none, none, none, none⟩

/-- Witness for C3: the theorem applied to a concrete single-row run. -/
theorem claim_C3_witness :
    c3Out.retailPrice
        = specRetailFormula (valueOpt c3Out.costPrice) c3Out.shippingCost c3Out.handlingCost ∧
    c3Out.minPrice = c3Out.retailPrice ∧
    c3Out.maxPrice = specMaxFormula c3Out.retailPrice :=
  claim_C3 none [⟨0, 1, 5⟩] [[c3In]] [c3Out] 0
    ⟨[c3Out], by rfl, List.Perm.refl _, by simp [keySorted]⟩
    c3Out (by simp)

/-! ## Claims C4 and C7: the block filter -/

/-- The brand test of `filter_data`: uppercased brand among the uppercased
non-empty blocked-brand entries. -/
def brandBlockedBy (brands : List String) (r : FRow) : Bool :=
  ((brands.filter (fun b => b ≠ "")).map strUpper).contains (strUpper r.brand)

/-- The product-id test of `filter_data`: the row's sku string — as it is,
not trimmed — among the trimmed non-empty blocked-id entries. -/
def idBlockedBy (ids : List String) (r : FRow) : Bool :=
  ((ids.filter (fun p => p ≠ "")).map (fun p => strOfChars (pyStrip p.data))).contains r.sku

theorem filter_length_split {α} (p : α → Bool) (l : List α) :
    (l.filter p).length + (l.filter (fun a => !p a)).length = l.length := by
  induction l with
  | nil => rfl
  | cons a t ih =>
    by_cases h : p a = true
    · simp only [List.filter_cons, h, if_true, Bool.not_true, Bool.false_eq_true, if_false,
        List.length_cons]
      omega
    · have h' : p a = false := by simpa using h
      simp only [List.filter_cons, h', Bool.false_eq_true, if_false, Bool.not_false, if_true,
        List.length_cons]
      omega

/-- **C4 counterexample.** A record whose sku `" 9"` trims to the blocked
id `"9"` is *not* removed: the code compares the untrimmed sku string
against the trimmed blocked entries, so the claim's "sku, as a trimmed
string" reading fails. -/
theorem claim_C4_counterexample :
    (filter_data [] ["9"] ⟨[⟨"B", " 9"⟩], none⟩).result.rows = [⟨"B", " 9"⟩] ∧
    strOfChars (pyStrip " 9".data) = "9" ∧
    (filter_data [] ["9"] ⟨[⟨"B", " 9"⟩], none⟩).productsRemoved = 0 := by
  refine ⟨rfl, rfl, rfl⟩

/-- **C4** (corrected). The filter removes brand-blocked records first
(case-insensitive: uppercased brand among uppercased entries) and counts
them; then from the remainder removes records whose sku — taken verbatim,
*not* trimmed — equals a trimmed blocked-id entry, counting them
separately; a record matching both tests is counted only under
`brands_removed`. -/
theorem claim_C4 (brands ids : List String) (df : DFrame) :
    (filter_data brands ids df).brandsRemoved
      = (df.rows.filter (fun r => brandBlockedBy brands r)).length ∧
    (filter_data brands ids df).productsRemoved
      = (df.rows.filter (fun r => !brandBlockedBy brands r && idBlockedBy ids r)).length ∧
    (filter_data brands ids df).result.rows
      = df.rows.filter (fun r => !brandBlockedBy brands r && !idBlockedBy ids r) := by
  refine ⟨?_, ?_, ?_⟩
  · show df.rows.length - (df.rows.filter (fun r => !brandBlockedBy brands r)).length = _
    have := filter_length_split (fun r => brandBlockedBy brands r) df.rows
    simp only at this ⊢
    omega
  · show (df.rows.filter (fun r => !brandBlockedBy brands r)).length
      - ((df.rows.filter (fun r => !brandBlockedBy brands r)).filter
          (fun r => !idBlockedBy ids r)).length = _
    rw [List.filter_filter]
    have h1 := filter_length_split (fun r => idBlockedBy ids r)
      (df.rows.filter (fun r => !brandBlockedBy brands r))
    rw [List.filter_filter, List.filter_filter] at h1
    have h2 : df.rows.filter (fun a => !brandBlockedBy brands a && idBlockedBy ids a)
        = df.rows.filter (fun a => idBlockedBy ids a && !brandBlockedBy brands a) := by
      apply List.filter_congr
      intro a _
      exact Bool.and_comm _ _
    rw [h2]
    omega
  · show (df.rows.filter (fun r => !brandBlockedBy brands r)).filter
        (fun r => !idBlockedBy ids r) = _
    rw [List.filter_filter]
    apply List.filter_congr
    intro a _
    exact Bool.and_comm _ _

/-- **C7 counterexample.** `filter_data` is not side-effect free on its
argument: the call writes the `BRAND_UPPER` helper column into the caller's
frame (`df["BRAND_UPPER"] = df["BRAND"].str.upper()` mutates `df` and the
column is only dropped from the fresh filtered copies). -/
theorem claim_C7_counterexample :
    (filter_data [] [] ⟨[⟨"A", "1"⟩], none⟩).caller ≠ ⟨[⟨"A", "1"⟩], none⟩ ∧
    (filter_data [] [] ⟨[⟨"A", "1"⟩], none⟩).caller.brandUpperCol = some ["A"] := by
  refine ⟨?_, rfl⟩
  intro h
  have hcol : (filter_data [] [] ⟨[⟨"A", "1"⟩], none⟩).caller.brandUpperCol
      = some ["A"] := rfl
  rw [congrArg DFrame.brandUpperCol h] at hcol
  cases hcol

/-- **C7** (corrected). `filter_data` leaves the caller's *rows* unchanged
and, being modelled functionally, touches neither block list, but it adds a
`BRAND_UPPER` column (the uppercased brands) to the caller's frame; the
returned frame carries no such column. -/
theorem claim_C7 (brands ids : List String) (df : DFrame) :
    (filter_data brands ids df).caller.rows = df.rows ∧
    (filter_data brands ids df).caller.brandUpperCol
      = some (df.rows.map (fun r => strUpper r.brand)) ∧
    (filter_data brands ids df).result.brandUpperCol = none :=
  ⟨rfl, rfl, rfl⟩

/-! ## Claim C6: the UPC normalization -/

/-- **C6 counterexample.** A missing UPC does not become the empty string:
the `""` produced by the row lambda is then zero-padded by
`.str.zfill(12)`, yielding twelve zeros. -/
theorem claim_C6_counterexample :
    upcCell Value.vNull = some "000000000000" ∧ ("000000000000" : String) ≠ "" := by
  exact ⟨rfl, by decide⟩

theorem padZeros_length (n : Nat) (s : List Char) :
    (padZeros n s).length = max n s.length := by
  unfold padZeros
  rw [List.length_append, List.length_replicate]
  omega

/-- **C6** (corrected). A present numeric UPC becomes its truncated integer
rendered in decimal and left-zero-padded to 12 characters (so the padded
string still parses back to the same number, and is exactly 12 characters
unless the number needs more digits); a missing UPC becomes twelve zeros —
the zero-padded empty string, not the empty string — and an empty-*string*
source raises (`float("")`). -/
theorem claim_C6 (n : Nat) (q : ℚ) :
    upcCell Value.vNull = some "000000000000" ∧
    upcCell (Value.vStr "") = none ∧
    upcCell (Value.vNum q) = some (strOfChars (zfillChars 12 (renderInt (ratTrunc q)))) ∧
    (∀ u, upcCell (Value.vNum ((n : ℕ) : ℚ)) = some u →
      u.data.length = max 12 (renderNat n).length ∧ natVal u.data = n) := by
  refine ⟨rfl, rfl, rfl, ?_⟩
  intro u hu
  have hu' : u = strOfChars (zfillChars 12 (renderInt (ratTrunc ((n : ℕ) : ℚ)))) := by
    have : upcCell (Value.vNum ((n : ℕ) : ℚ))
        = some (strOfChars (zfillChars 12 (renderInt (ratTrunc ((n : ℕ) : ℚ))))) := rfl
    rw [this] at hu
    exact (Option.some_inj.mp hu).symm
  subst hu'
  have htr : ratTrunc ((n : ℕ) : ℚ) = (n : ℤ) := ratTrunc_natCast n
  have hri : renderInt ((n : ℕ) : ℤ) = renderNat n := by
    unfold renderInt
    rw [if_neg (by omega)]
    simp
  have hdata : (strOfChars (zfillChars 12 (renderInt (ratTrunc ((n : ℕ) : ℚ))))).data
      = zfillChars 12 (renderNat n) := by
    rw [htr, hri]
    rfl
  rw [hdata, zfillChars_of_digits (renderNat_digits n) (renderNat_ne_nil n)]
  exact ⟨padZeros_length _ _, by rw [natVal_padZeros, natVal_renderNat]⟩

/-- Witness for C6: the number `123` round-trips through the padded string
`"000000000123"`. -/
theorem claim_C6_witness :
    ("000000000123" : String).data.length = max 12 (renderNat 123).length ∧
    natVal ("000000000123" : String).data = 123 :=
  (claim_C6 123 0).2.2.2 "000000000123" (by rfl)

/-! ## Claim C8: the sheet reader -/

/-- A sheet matching the second (already-canonical) mapping scheme. -/
def c8Good : Sheet := ⟨"S1", ["TITLE", "Brand", "SKU", "UPC/ISBN", "COST_PRICE"]⟩

/-- A sheet matching no scheme. -/
def c8Bad : Sheet := ⟨"S2", ["Foo"]⟩

/-- **C8 counterexample.** A failing sheet does *not* abort only its own
contribution: alone, the good sheet contributes; with a later failing sheet
in the same file the whole call returns the error and the good sheet's
already-computed contribution is discarded. -/
theorem claim_C8_counterexample :
    read_excel_file [c8Good]
      = Except.ok [⟨"S1", ["TITLE", "BRAND", "SKU", "UPC/ISBN", "COST_PRICE"]⟩] ∧
    read_excel_file [c8Good, c8Bad] = Except.error (sheetErrorMsg c8Bad) :=
  ⟨rfl, rfl⟩

theorem readSheets_spec :
    ∀ (sheets : List Sheet) (acc : List AppliedSheet),
      readSheets sheets acc =
        match sheets.find? (fun sh => (selectMapping sh).isNone) with
        | some sh => Except.error (sheetErrorMsg sh)
        | none =>
          if (acc ++ sheets.map (fun sh =>
                (⟨sh.name, ((selectMapping sh).getD []).map Prod.snd⟩ : AppliedSheet))).isEmpty
          then Except.error "No valid data found in any sheet"
          else Except.ok (acc ++ sheets.map (fun sh =>
                ⟨sh.name, ((selectMapping sh).getD []).map Prod.snd⟩)) := by
  intro sheets
  induction sheets with
  | nil =>
    intro acc
    simp only [List.find?_nil, List.map_nil, List.append_nil]
    rfl
  | cons sh rest ih =>
    intro acc
    rw [readSheets]
    cases hsel : selectMapping sh with
    | some m =>
      simp only [List.find?_cons, hsel, Option.isNone_some, List.map_cons]
      rw [ih]
      simp only [hsel, Option.getD_some]
      rw [show acc ++ [(⟨sh.name, m.map Prod.snd⟩ : AppliedSheet)]
            ++ rest.map (fun sh => (⟨sh.name, ((selectMapping sh).getD []).map Prod.snd⟩
              : AppliedSheet))
          = acc ++ (⟨sh.name, m.map Prod.snd⟩ :: rest.map (fun sh =>
              ⟨sh.name, ((selectMapping sh).getD []).map Prod.snd⟩)) from by
        rw [List.append_assoc]; rfl]
    | none =>
      simp only [List.find?_cons, hsel, Option.isNone_none]

/-- **C8** (corrected). The reader applies the first matching scheme per
sheet, and when *any* sheet matches no scheme the *whole call* fails with
the error for the first such sheet, naming its missing column variations —
the contributions of already-processed sheets are discarded with it (only
when every sheet matches does it return all contributions, or the
no-valid-data error for an empty workbook). -/
theorem claim_C8 (sheets : List Sheet) :
    (∀ sh ∈ sheets, selectMapping sh = columnMappings.find? (fun m => mappingMatches m sh)) ∧
    read_excel_file sheets =
      match sheets.find? (fun sh => (selectMapping sh).isNone) with
      | some sh => Except.error (sheetErrorMsg sh)
      | none =>
        if sheets.isEmpty then Except.error "No valid data found in any sheet"
        else Except.ok (sheets.map (fun sh =>
          ⟨sh.name, ((selectMapping sh).getD []).map Prod.snd⟩)) := by
  constructor
  · intro sh _
    rfl
  · rw [read_excel_file, readSheets_spec]
    cases sheets.find? (fun sh => (selectMapping sh).isNone) with
    | some sh => rfl
    | none =>
      simp only [List.nil_append, List.isEmpty_iff, List.map_eq_nil_iff]

/-- Witness for C8: the theorem applied to the one-good-sheet workbook. -/
theorem claim_C8_witness :
    read_excel_file [c8Good]
      = Except.ok [⟨"S1", ["TITLE", "BRAND", "SKU", "UPC/ISBN", "COST_PRICE"]⟩] :=
  ((claim_C8 [c8Good]).2).trans (by rfl)

/-! ## Claim C10: duplicate detection in `add_brand` -/

/-- **C10 counterexample.** With `["Acme", "ACME"]` stored, the brand
`"ACME"` differs only in letter case from the stored entry `"Acme"`, yet
`add_brand` rejects it — because it is also *exactly* present. The claim's
unconditional "succeeds and appends" fails on this input. -/
theorem claim_C10_counterexample :
    (∃ e ∈ (["Acme", "ACME"] : List String), e ≠ "ACME" ∧ strUpper e = strUpper "ACME") ∧
    (add_brand ["Acme", "ACME"] "ACME").1 = false ∧
    (add_brand ["Acme", "ACME"] "ACME").2.2 = ["Acme", "ACME"] := by
  refine ⟨?_, rfl, rfl⟩
  exact ⟨"Acme", by decide, by decide, by decide⟩

/-- **C10** (corrected). `add_brand` checks duplicates case-sensitively: a
trimmed, non-blank brand that is not case-sensitively stored is accepted
and appended even when a case-variant of it is stored, and brands with
equal uppercasing block exactly the same records in the filter — so the
stored list can accumulate case-variant entries that all block the same
brand. -/
theorem claim_C10 (stored : List String) (b : String)
    (hb : strOfChars (pyStrip b.data) = b) (hne : b ≠ "") (hnm : b ∉ stored) :
    add_brand stored b
      = (true, s!"Brand '{b}' has been added to the blocked list.", stored ++ [b]) ∧
    (∀ e, strUpper e = strUpper b → e ≠ "" →
      ∀ r : FRow, brandBlockedBy [e] r = brandBlockedBy [b] r) := by
  constructor
  · unfold add_brand
    rw [hb]
    rw [if_neg (by simp [hne])]
    rw [if_neg (by simpa using hnm)]
  · intro e he hene r
    unfold brandBlockedBy
    simp only [List.filter_cons, List.filter_nil]
    rw [if_pos (by simpa using hene), if_pos (by simpa using hne)]
    simp [he]

/-- Witness for C10: adding `"ACME"` over stored `["Acme"]` succeeds. -/
theorem claim_C10_witness :
    add_brand ["Acme"] "ACME"
      = (true, "Brand 'ACME' has been added to the blocked list.", ["Acme", "ACME"]) :=
  ((claim_C10 ["Acme"] "ACME" (by rfl) (by decide) (by decide)).1).trans (by rfl)

/-! ## Claim C9: idempotence of the table assembler -/

theorem strOfChars_data (l : List Char) : (strOfChars l).data = l := rfl

/-- A title containing none of the three markup tokens. -/
def tokenFree (t : String) : Prop :=
  containsSub "(W+)".data t.data = false ∧
  containsSub "(SP)".data t.data = false ∧
  containsSub "(P)".data t.data = false

theorem pyStrip_mem {l : List Char} {c : Char} (h : c ∈ pyStrip l) : c ∈ l := by
  unfold pyStrip at h
  rw [List.mem_reverse] at h
  have h2 := (List.dropWhile_sublist pySpace).subset h
  rw [List.mem_reverse] at h2
  exact (List.dropWhile_sublist pySpace).subset h2

/-- One pass of the title cleanup is enough when its result carries no
markup token (which can fail: removing `(SP)` can create `(W+)`). -/
theorem cleanTitle_fix {t : String} (htf : tokenFree (cleanTitle t)) :
    cleanTitle (cleanTitle t) = cleanTitle t := by
  obtain ⟨h1, h2, h3⟩ := htf
  have hd : (cleanTitle t).data
      = pyStrip (removeOcc "(P)".data (removeOcc "(SP)".data (removeOcc "(W+)".data t.data))) :=
    rfl
  rw [hd] at h1 h2 h3
  show strOfChars (pyStrip (removeOcc "(P)".data (removeOcc "(SP)".data
      (removeOcc "(W+)".data (cleanTitle t).data)))) = cleanTitle t
  rw [hd, removeOcc_of_not_contains _ h1, removeOcc_of_not_contains _ h2,
    removeOcc_of_not_contains _ h3, pyStrip_idem]
  rfl

/-- The sku cleanup is idempotent: the first pass leaves no comma and a
stripped string. -/
theorem cleanSku_fix (s : String) : cleanSku (cleanSku s) = cleanSku s := by
  have hd : (cleanSku s).data = pyStrip (s.data.filter (fun c => c ≠ ',')) := rfl
  show strOfChars (pyStrip (((cleanSku s).data).filter (fun c => c ≠ ','))) = cleanSku s
  rw [hd]
  have hnc : (pyStrip (s.data.filter (fun c => c ≠ ','))).filter (fun c => c ≠ ',')
      = pyStrip (s.data.filter (fun c => c ≠ ',')) := by
    rw [List.filter_eq_self]
    intro a ha
    exact (List.mem_filter.mp (pyStrip_mem ha)).2
  rw [hnc, pyStrip_idem]
  rfl

/-- Every string in the image of the UPC cleanup is a fixed point of it. -/
theorem upcCell_image_fix {v : Value} {u : String} (h : upcCell v = some u) :
    upcCell (Value.vStr u) = some u := by
  cases v with
  | vNull =>
    have hu : u = strOfChars (zfillChars 12 []) := by
      rw [upcCell] at h
      exact (Option.some_inj.mp h).symm
    have hz : zfillChars 12 ([] : List Char) = zfillChars 12 (renderInt 0) := by decide
    rw [hu, hz]
    exact upcCell_fix 0
  | vNum q =>
    have hu : u = strOfChars (zfillChars 12 (renderInt (ratTrunc q))) := by
      rw [upcCell] at h
      exact (Option.some_inj.mp h).symm
    rw [hu]
    exact upcCell_fix (ratTrunc q)
  | vStr s =>
    rw [upcCell] at h
    cases hp : parseFloat s.data with
    | none => rw [hp] at h; exact absurd h (by simp)
    | some q =>
      rw [hp] at h
      simp only [Option.map_some', Option.some_inj] at h
      rw [← h]
      exact upcCell_fix (ratTrunc q)

/-- Every optional cost in the image of the cost cleanup is a fixed point
of it (a second string/float round trip re-rounds an already rounded
value). -/
theorem costNormalize_image_fix {v : Value} {c : Option ℚ}
    (h : costNormalize v = some c) : costNormalize (optToValue c) = some c := by
  cases v with
  | vNull =>
    have : c = none := by
      rw [costNormalize] at h
      exact (Option.some_inj.mp h).symm
    rw [this]
    rfl
  | vNum q =>
    have : c = some (round2 q) := by
      rw [costNormalize] at h
      exact (Option.some_inj.mp h).symm
    rw [this]
    show costNormalize (Value.vNum (round2 q)) = some (some (round2 q))
    rw [costNormalize, round2_idem]
  | vStr s =>
    rw [costNormalize] at h
    cases hp : parseFloat (s.data.filter (fun c => ¬(c = '$' ∨ c = ','))) with
    | none => rw [hp] at h; exact absurd h (by simp)
    | some q =>
      rw [hp] at h
      simp only [Option.map_some', Option.some_inj] at h
      rw [← h]
      show costNormalize (Value.vNum (round2 q)) = some (some (round2 q))
      rw [costNormalize, round2_idem]

/-- Rows produced by `normalizeRow` whose title is free of markup tokens
are fixed points of `normalizeRow`. -/
theorem normalizeRow_fix {legend : List Band} {s r : Row}
    (h : normalizeRow legend s = some r) (htf : tokenFree r.title) :
    normalizeRow legend r = some r := by
  obtain ⟨u, c, hu, hc, hr⟩ := normalizeRow_inv h
  have htitle : cleanTitle r.title = r.title := by
    have : r.title = cleanTitle s.title := by rw [hr]
    rw [this] at htf ⊢
    exact cleanTitle_fix htf
  have hsku : cleanSku r.sku = r.sku := by
    have : r.sku = cleanSku s.sku := by rw [hr]
    rw [this]
    exact cleanSku_fix _
  have hupc : r.upc = Value.vStr u := by rw [hr]
  have hcost : r.costPrice = optToValue c := by rw [hr]
  unfold normalizeRow
  rw [htitle, hsku, hupc, hcost, upcCell_image_fix hu, costNormalize_image_fix hc]
  simp only [Option.bind_eq_bind, Option.some_bind, Option.pure_def, Option.some_inj]
  rw [hr]

/-- Inversion of `processPre` on a non-empty frame list. -/
theorem processPre_inv {blocked : Option (List String)} {legend : List Band}
    {dfs : List (List Row)} {pre : List Row} {n : Nat}
    (h : processPre blocked legend dfs = some (pre, n)) :
    (dfs.isEmpty = true ∧ pre = [] ∧ n = 0) ∨
    (∃ rows, mapOpt (normalizeRow legend) (brandKept blocked dfs.flatten) = some rows ∧
      pre = dropDups rows ∧
      n = dfs.flatten.length - (brandKept blocked dfs.flatten).length) := by
  unfold processPre at h
  by_cases hdfs : dfs.isEmpty
  · rw [if_pos hdfs] at h
    cases h
    exact Or.inl ⟨hdfs, rfl, rfl⟩
  · rw [if_neg hdfs] at h
    simp only at h
    cases hmap : mapOpt (normalizeRow legend) (brandKept blocked dfs.flatten) with
    | none => rw [hmap] at h; exact absurd h (by simp)
    | some rows =>
      rw [hmap] at h
      simp only [Option.some_inj, Prod.mk.injEq] at h
      exact Or.inr ⟨rows, rfl, h.1.symm, h.2.symm⟩

theorem processPre_nodup {blocked : Option (List String)} {legend : List Band}
    {dfs : List (List Row)} {pre : List Row} {n : Nat}
    (h : processPre blocked legend dfs = some (pre, n)) : pre.Nodup := by
  rcases processPre_inv h with ⟨_, hpre, _⟩ | ⟨rows, _, hpre, _⟩
  · rw [hpre]; exact List.nodup_nil
  · rw [hpre]; exact dropDups_nodup rows

/-- **C9** (corrected). Re-running the assembler on one of its own outputs
reproduces that output *as long as no title still contains a markup token*
(the counterexample shows a first pass can create one): the second run's
pre-sort table is exactly the output table, the brand filter removes
nothing (removed count 0), and the output itself is again a valid sorted
result; row order beyond that is only guaranteed up to the final sort's
choice among key-equal rows. -/
theorem claim_C9 (blocked : Option (List String)) (legend : List Band)
    (dfs : List (List Row)) (pre : List Row) (n : Nat)
    (h : processPre blocked legend dfs = some (pre, n))
    (htf : ∀ r ∈ pre, tokenFree r.title)
    (out : List Row) (hout : validSortOutput pre out) :
    processPre blocked legend [out] = some (out, 0) ∧ validSortOutput out out := by
  obtain ⟨hperm, hsorted⟩ := hout
  have hmem : ∀ r ∈ out, r ∈ pre := fun r hr => hperm.mem_iff.mpr hr
  have hfix : ∀ r ∈ out, normalizeRow legend r = some r := by
    intro r hr
    obtain ⟨s, _, hns, _⟩ := processPre_mem h (hmem r hr)
    exact normalizeRow_fix hns (htf r (hmem r hr))
  have hkept : brandKept blocked out = out := by
    cases blocked with
    | none => rfl
    | some bl =>
      show out.filter _ = out
      rw [List.filter_eq_self]
      intro r hr
      obtain ⟨s, _, hns, hbl⟩ := processPre_mem h (hmem r hr)
      have hbrand : r.brand = s.brand := by
        obtain ⟨u, c, _, _, hr'⟩ := normalizeRow_inv hns
        rw [hr']
      simp only [hbrand]
      rw [hbl bl rfl]
      rfl
  have hnodup : out.Nodup := hperm.nodup (processPre_nodup h)
  constructor
  · unfold processPre
    rw [if_neg (by simp)]
    have hflat : ([out] : List (List Row)).flatten = out := by simp
    simp only [hflat, hkept]
    rw [mapOpt_fix hfix]
    show some (dropDups out, out.length - out.length) = some (out, 0)
    rw [dropDups_of_nodup hnodup, Nat.sub_self]
  · exact ⟨List.Perm.refl out, hsorted⟩

/-- Input row of the C9 counterexample: the title fragment `(W(SP)+)`
contains no token until the `(SP)` removal creates a fresh `(W+)`. -/
def c9In : Row :=
  ⟨"ab (W(SP)+)", "B", "s", Value.vNull, Value.vNull, none, 0, "", none, none, none,
   none, none⟩

/-- The first run's output row: title `"ab (W+)"`. -/
def c9Mid : Row :=
  ⟨"ab (W+)", "B", "s", Value.vStr "000000000000", Value.vNull, some 0.75, 1,
   "WALMART", none, none, none, none, none⟩

/-- The second run's output row: the fresh `(W+)` is removed, title `"ab"`. -/
def c9Out : Row :=
  ⟨"ab", "B", "s", Value.vStr "000000000000", Value.vNull, some 0.75, 1,
   "WALMART", none, none, none, none, none⟩

/-- **C9 counterexample.** On the single-row table produced from `c9In`,
re-running the assembler changes the table: the first pass turns the title
`"ab (W(SP)+)"` into `"ab (W+)"` (removing `(SP)` creates a new token) and
the second pass removes that token. The final sort cannot mask this: the
pre-sort tables are singletons, so each run's only possible sorted output
is its pre-sort table. -/
theorem claim_C9_counterexample :
    processPre none [] [[c9In]] = some ([c9Mid], 0) ∧
    processPre none [] [[c9Mid]] = some ([c9Out], 0) ∧
    c9Mid ≠ c9Out := by
  refine ⟨rfl, rfl, ?_⟩
  intro hcon
  have := congrArg Row.title hcon
  exact absurd this (by decide)

/-- A token-free input row for the C9 witness run. -/
def c9WIn : Row :=
  ⟨"soap", "B", "1", Value.vNull, Value.vNull, none, 0, "", none, none, none, none, none⟩

/-- Its processed form, a fixed point of the second run. -/
def c9WOut : Row :=
  ⟨"soap", "B", "1", Value.vStr "000000000000", Value.vNull, some 0.75, 1,
   "WALMART", none, none, none, none, none⟩

/-- Witness for C9: the theorem applied to a concrete one-row run. -/
theorem claim_C9_witness :
    processPre none [] [[c9WOut]] = some ([c9WOut], 0) ∧
    validSortOutput [c9WOut] [c9WOut] :=
  claim_C9 none [] [[c9WIn]] [c9WOut] 0 (by rfl)
    (by
      intro r hr
      have : r = c9WOut := by simpa using hr
      subst this
      refine ⟨by decide, by decide, by decide⟩)
    [c9WOut]
    ⟨List.Perm.refl _, by simp [keySorted]⟩

/-! ## Concrete evaluations of the numeric pipeline

The spec's §8 sample values, checked against the embedding (these exercise
the round-down, round-up and round-half-to-even branches of `round2`). -/

theorem roundHalfEven_eq_down {x : ℚ} {f : ℤ} (h1 : ⌊x⌋ = f) (h2 : x - f < 1 / 2) :
    roundHalfEven x = f := by
  unfold roundHalfEven
  rw [h1, if_pos h2]

theorem roundHalfEven_eq_up {x : ℚ} {f : ℤ} (h1 : ⌊x⌋ = f) (h2 : x - f > 1 / 2) :
    roundHalfEven x = f + 1 := by
  unfold roundHalfEven
  rw [h1, if_neg (by linarith), if_pos h2]

theorem roundHalfEven_eq_half_odd {x : ℚ} {f : ℤ} (h1 : ⌊x⌋ = f) (h2 : x - f = 1 / 2)
    (h3 : f % 2 = 1) : roundHalfEven x = f + 1 := by
  unfold roundHalfEven
  rw [h1, if_neg (by linarith), if_neg (by linarith), if_neg (by omega)]

/-- `"Soap 5 oz"`: `round((5 + 6) / 16, 2) = 0.69` (round-up branch). -/
theorem extract_weight_oz_example :
    extract_weight_with_packs "Soap 5 oz" = some (69 / 100) := by
  have h0 : extract_weight_with_packs "Soap 5 oz"
      = some (round2 ((((5 : ℕ) : ℚ) + 6) * 1 / 16)) := rfl
  rw [h0]
  have hx : (((5 : ℕ) : ℚ) + 6) * 1 / 16 = 11 / 16 := by push_cast; ring
  rw [hx]
  unfold round2
  have hf : ⌊(11 / 16 : ℚ) * 100⌋ = 68 := by
    rw [Int.floor_eq_iff]
    norm_num
  rw [roundHalfEven_eq_up hf (by norm_num)]
  norm_num

/-- `"Juice 12 fl oz"`: `round((12 + 10) / 16, 2) = 1.38`
(half-to-even on an odd floor). -/
theorem extract_weight_floz_example :
    extract_weight_with_packs "Juice 12 fl oz" = some (69 / 50) := by
  have h0 : extract_weight_with_packs "Juice 12 fl oz"
      = some (round2 ((((12 : ℕ) : ℚ) + 10) * 1 / 16)) := rfl
  rw [h0]
  have hx : (((12 : ℕ) : ℚ) + 10) * 1 / 16 = 11 / 8 := by push_cast; ring
  rw [hx]
  unfold round2
  have hf : ⌊(11 / 8 : ℚ) * 100⌋ = 137 := by
    rw [Int.floor_eq_iff]
    norm_num
  rw [roundHalfEven_eq_half_odd hf (by norm_num) (by decide)]
  norm_num

/-- `"4 oz 3 pack"`: `round(((4 + 6) × 3) / 16, 2) = 1.88`. -/
theorem extract_weight_pack_example :
    extract_weight_with_packs "4 oz 3 pack" = some (47 / 25) := by
  have h0 : extract_weight_with_packs "4 oz 3 pack"
      = some (round2 ((((4 : ℕ) : ℚ) + 6) * ((3 : ℕ) : ℚ) / 16)) := rfl
  rw [h0]
  have hx : (((4 : ℕ) : ℚ) + 6) * ((3 : ℕ) : ℚ) / 16 = 15 / 8 := by push_cast; ring
  rw [hx]
  unfold round2
  have hf : ⌊(15 / 8 : ℚ) * 100⌋ = 187 := by
    rw [Int.floor_eq_iff]
    norm_num
  rw [roundHalfEven_eq_half_odd hf (by norm_num) (by decide)]
  norm_num

/-- Titles with no recognizable unit produce `none` and never raise. -/
theorem extract_weight_none_example :
    extract_weight_with_packs "no units here 3 pack" = none := rfl

/-- The retail formula at the worked values `cost 10`, `shipping 5`,
`handling 0.75`: `round(15.75 × 1.35, 2) = 21.26` (round-down branch). -/
theorem retailRow_value_example :
    retailRow (some 10) (some 5) (some 0.75) = some (1063 / 50) := by
  show some (round2 ((10 + 5 + 0.75) * 1.35)) = some (1063 / 50)
  have hx : ((10 : ℚ) + 5 + 0.75) * 1.35 = 1701 / 80 := by norm_num
  rw [hx]
  unfold round2
  have hf : ⌊(1701 / 80 : ℚ) * 100⌋ = 2126 := by
    rw [Int.floor_eq_iff]
    norm_num
  rw [roundHalfEven_eq_down hf (by norm_num)]
  norm_num

end Helium
